import Mathlib

/-
Verification of the mdpdf-filter repository (src/pandocfilters.py and
src/mdpdf.py) against its natural-language specification.

The embedding is a shallow one:

* Python JSON values (the pandoc AST) become the inductive type `Json`.
  Python dicts are association lists (Python dicts have unique keys, and
  all dicts reached here come from `json.loads`, so first-occurrence
  lookup is faithful); a JSON number is modelled as an `Int` (no claim
  exercises numeric content).
* Python `None` returned for a missing `'c'` key coincides with JSON
  `null` loaded as Python `None`, so both are `Json.null`.
* Functions that can raise a Python exception return `Option` / `Except`
  (`none` or `error` is the raise).
* `walk` can fail to terminate when an action keeps producing fresh
  matching nodes, so it takes a fuel argument; `none` on fuel exhaustion
  models the diverging run.  `walk` is additionally instrumented to
  return, next to the rewritten tree, the ordered list of `(key, value)`
  pairs that were offered to the action; the first component is exactly
  the source function's result.
-/

inductive Json where
  | null : Json
  | bool : Bool → Json
  | num : Int → Json
  | str : String → Json
  | arr : List Json → Json
  | obj : List (String × Json) → Json

/-- First-occurrence lookup in an association list, i.e. `d[k]` /
`k in d` on a Python dict. -/
def jlookup (k : String) : List (String × Json) → Option Json
  | [] => none
  | (k1, v) :: rest => if k1 = k then some v else jlookup k rest

/-- Python `d[k] = v`: replace the value of an existing key in place,
otherwise append the new key at the end. -/
def setKey : List (String × Json) → String → Json → List (String × Json)
  | [], k, v => [(k, v)]
  | (k1, v1) :: rest, k, v =>
    if k1 = k then (k, v) :: rest else (k1, v1) :: setKey rest k v

/-- Python `j == "s"` for a string literal: true exactly on that string. -/
def strEq (j : Json) (s : String) : Bool :=
  match j with
  | Json.str t => t == s
  | _ => false

/-- Python truthiness of a JSON value. -/
def pyTruthy : Json → Bool
  | Json.null => false
  | Json.bool b => b
  | Json.num n => n != 0
  | Json.str s => s != ""
  | Json.arr l => !l.isEmpty
  | Json.obj l => !l.isEmpty

def isDict : Json → Bool
  | Json.obj _ => true
  | _ => false

/-- Python `x[i]` for a non-negative index: list indexing, or string
indexing (yielding a one-character string); anything else raises
(`none`). -/
def pyIndex (j : Json) (i : Nat) : Option Json :=
  match j with
  | Json.arr l => l.get? i
  | Json.str s =>
    match s.toList.get? i with
    | some c => some (Json.str c.toString)
    | none => none
  | _ => none

mutual

/-- Python `repr` of a JSON value (reached only when an f-string
formats a non-string value). -/
def pyRepr : Json → String
  | Json.null => "None"
  | Json.bool b => if b then "True" else "False"
  | Json.num n => toString n
  | Json.str s => "\x27" ++ s ++ "\x27"
  | Json.arr l => "[" ++ pyReprList l ++ "]"
  | Json.obj l => "\x7b" ++ pyReprFields l ++ "\x7d"

def pyReprList : List Json → String
  | [] => ""
  | [x] => pyRepr x
  | x :: xs => pyRepr x ++ ", " ++ pyReprList xs

def pyReprFields : List (String × Json) → String
  | [] => ""
  | [(k, v)] => "\x27" ++ k ++ "\x27: " ++ pyRepr v
  | (k, v) :: xs => "\x27" ++ k ++ "\x27: " ++ pyRepr v ++ ", " ++ pyReprFields xs

end

/-- Python `str` of a JSON value, as used by an f-string. -/
def pyStr (j : Json) : String :=
  match j with
  | Json.str s => s
  | j => pyRepr j

/-- A pandoc node `\x7b"t": tag, "c": content\x7d`. -/
def mkNode (t : String) (c : Json) : Json :=
  Json.obj [("t", Json.str t), ("c", c)]

-- ---[ pandocfilters.elt and the element constructors ]---------------------

/-- The `ValueError` raised by `elt`'s arity check: it carries the tag,
the declared arity and the actual argument count. -/
structure ArityError where
  tag : String
  expected : Nat
  given : Nat
deriving DecidableEq

/-- `elt(eltType, num_args)` from src/pandocfilters.py, lines 165-181,
with the argument tuple passed as a list.  A `ValueError` is the
`Except.error` case. -/
def elt (eltType : String) (num_args : Nat) (args : List Json) : Except ArityError Json :=
  let len_args := args.length
  if len_args ≠ num_args then
    Except.error ⟨eltType, num_args, len_args⟩
  else
    let content :=
      if num_args = 0 then Json.arr []
      else if args.length = 1 then
        (match args with
         | x :: _ => x
         | [] => Json.null)
      else Json.arr args
    Except.ok (Json.obj [("t", Json.str eltType), ("c", content)])

namespace Pandoc

def Plain := elt "Plain" 1
def Para := elt "Para" 1
def CodeBlock := elt "CodeBlock" 2
def RawBlock := elt "RawBlock" 2
def BlockQuote := elt "BlockQuote" 1
def OrderedList := elt "OrderedList" 2
def MetaInlines := elt "MetaInlines" 1
def MetaBlocks := elt "MetaBlocks" 1
def BulletList := elt "BulletList" 1
def DefinitionList := elt "DefinitionList" 1
def Header := elt "Header" 3
def HorizontalRule := elt "HorizontalRule" 0
def Table := elt "Table" 5
def Div := elt "Div" 2
def Null := elt "Null" 0
def Str := elt "Str" 1
def Emph := elt "Emph" 1
def Strong := elt "Strong" 1
def Strikeout := elt "Strikeout" 1
def Superscript := elt "Superscript" 1
def Subscript := elt "Subscript" 1
def SmallCaps := elt "SmallCaps" 1
def Quoted := elt "Quoted" 2
def Cite := elt "Cite" 2
def Code := elt "Code" 2
def Space := elt "Space" 0
def LineBreak := elt "LineBreak" 0
def Math := elt "Math" 2
def MetaString := elt "MetaString" 1
def RawInline := elt "RawInline" 2
def Link := elt "Link" 3
def Image := elt "Image" 3
def Note := elt "Note" 1
def SoftBreak := elt "SoftBreak" 0
def Span := elt "Span" 2

end Pandoc

-- ---[ pandocfilters.walk ]-------------------------------------------------

/-- An action `action(key, value, format, meta)`: `none` is Python
`None` (leave the object unchanged); `some (Json.arr res)` is a returned
list (splice); any other `some r` is a single replacement object. -/
abbrev WalkAction := Json → Json → String → Json → Option Json

/-- The test `isinstance(item, dict) and 't' in item` together with the
arguments `item['t']` and `item['c'] if 'c' in item else None` that
`walk` passes to the action. -/
def nodeView : Json → Option (Json × Json)
  | Json.obj fields =>
    (match jlookup "t" fields with
     | some tv => some (tv, (jlookup "c" fields).getD Json.null)
     | none => none)
  | _ => none

/-- The trace of offers made to an action: the `(key, value)` argument
pairs, in call order. -/
abbrev Offers := List (Json × Json)

mutual

/-- `walk` from src/pandocfilters.py, lines 21-64, instrumented: the
result pairs the rewritten tree with the ordered list of `(key, value)`
pairs offered to the action.  `fuel` bounds the recursion depth (the
Python function can diverge when an action keeps producing fresh
matching nodes); `none` models the diverging run. -/
def walk (fuel : Nat) (a : WalkAction) (f : String) (m : Json) (tree : Json) :
    Option (Json × Offers) :=
  match fuel with
  | 0 => none
  | Nat.succ n =>
    match tree with
    | Json.arr items =>
      (walkItems n a f m items).map (fun p => (Json.arr p.1, p.2))
    | Json.obj fields =>
      (walkFields n a f m fields).map (fun p => (Json.obj p.1, p.2))
    | t => some (t, [])
termination_by (fuel, 0, 0)

/-- The body of the `for item in tree` loop of `walk`'s list branch,
for one item (lines 45-57 of src/pandocfilters.py): the values this
iteration appends to `array`, paired with the offers it makes.  A Node
is offered once; then, depending on the action's result, the item
itself (`None`), each element of a returned list (splice), or the
returned object is recursively walked.  A non-Node item is walked
without an offer. -/
def handleItem (fuel : Nat) (a : WalkAction) (f : String) (m : Json) (item : Json) :
    Option (List Json × Offers) :=
  match nodeView item with
  | some (tv, cv) =>
    (match a tv cv f m with
     | none =>
       (walk fuel a f m item).map (fun p => ([p.1], (tv, cv) :: p.2))
     | some (Json.arr res) =>
       (walkEach fuel a f m res).map (fun p => (p.1, (tv, cv) :: p.2))
     | some r =>
       (walk fuel a f m r).map (fun p => ([p.1], (tv, cv) :: p.2)))
  | none =>
    (walk fuel a f m item).map (fun p => ([p.1], p.2))
termination_by (fuel, 2, 0)

/-- The `for item in tree` loop of `walk`'s list branch: the values
appended for each item, concatenated in order. -/
def walkItems (fuel : Nat) (a : WalkAction) (f : String) (m : Json) (items : List Json) :
    Option (List Json × Offers) :=
  match items with
  | [] => some ([], [])
  | item :: rest =>
    (match handleItem fuel a f m item, walkItems fuel a f m rest with
     | some (ws1, tr1), some (ws, tr2) => some (ws1 ++ ws, tr1 ++ tr2)
     | _, _ => none)
termination_by (fuel, 3, items.length)

/-- The `for item in res` loop of `walk`'s list-replacement (splice)
case: each returned item is walked independently. -/
def walkEach (fuel : Nat) (a : WalkAction) (f : String) (m : Json) (rs : List Json) :
    Option (List Json × Offers) :=
  match rs with
  | [] => some ([], [])
  | r :: rest =>
    (match walk fuel a f m r, walkEach fuel a f m rest with
     | some (w, tr1), some (ws, tr2) => some (w :: ws, tr1 ++ tr2)
     | _, _ => none)
termination_by (fuel, 1, rs.length)

/-- The `for key in tree` loop of `walk`'s dict branch. -/
def walkFields (fuel : Nat) (a : WalkAction) (f : String) (m : Json)
    (fields : List (String × Json)) :
    Option (List (String × Json) × Offers) :=
  match fields with
  | [] => some ([], [])
  | (k, v) :: rest =>
    (match walk fuel a f m v, walkFields fuel a f m rest with
     | some (w, tr1), some (ws, tr2) => some ((k, w) :: ws, tr1 ++ tr2)
     | _, _ => none)
termination_by (fuel, 3, fields.length)

end

-- ---[ pandocfilters.applyJSONFilters ]-------------------------------------

/-- The Python exceptions `applyJSONFilters` can raise:
`malformedInput` is the `json.JSONDecodeError` out of `json.loads`;
`attributeError` is `doc.get` on a non-dict deserialization result;
`nameError` is the `NameError` raised by `return json.dumps(altered)`
(line 127 of src/pandocfilters.py), since no variable `altered` is ever
assigned in the function. -/
inductive PyErr where
  | malformedInput
  | attributeError
  | nameError
deriving DecidableEq

/-- The `for action in actions: doc = walk(doc, action, format, meta)`
loop of `applyJSONFilters` (lines 124-125): the metadata argument is
the one computed before the loop and is threaded unchanged. -/
def runActions (fuel : Nat) (actions : List WalkAction) (format : String)
    (meta : Json) (doc : Json) : Option Json :=
  match actions with
  | [] => some doc
  | a :: rest =>
    match walk fuel a format meta doc with
    | none => none
    | some (d, _) => runActions fuel rest format meta d

/-- `applyJSONFilters` from src/pandocfilters.py, lines 102-127.
`json.loads` is modelled abstractly: the `source` string argument is
replaced by its parse result `parsed`, which is `none` exactly when the
source is not valid JSON (in which case `json.loads` raises before
anything else happens).  The overall `none` models a diverging `walk`
(fuel exhaustion).  The function can never return `Except.ok`: after
the action loop it executes `return json.dumps(altered)` and `altered`
is an undefined name, so a `NameError` is raised. -/
def applyJSONFilters (fuel : Nat) (actions : List WalkAction)
    (parsed : Option Json) (format : String) : Option (Except PyErr String) :=
  match parsed with
  | none => some (Except.error PyErr.malformedInput)
  | some doc =>
    match doc with
    | Json.obj fields =>
      let meta := (jlookup "meta" fields).getD (Json.obj [])
      match runActions fuel actions format meta doc with
      | none => none
      | some _ => some (Except.error PyErr.nameError)
    | _ => some (Except.error PyErr.attributeError)

-- ---[ mdpdf helpers ]------------------------------------------------------

/-- The node built by `pandocfilters.MetaString(s)` (arity 1, so the
content is the bare string). -/
def MetaStringNode (s : String) : Json :=
  mkNode "MetaString" (Json.str s)

/-- The node built by `pandocfilters.RawInline(fmt, s)` (arity 2, so
the content is the two-element list `[fmt, s]`). -/
def RawInlineNode (fmt : String) (s : String) : Json :=
  mkNode "RawInline" (Json.arr [Json.str fmt, Json.str s])

/-- `MetaRawLatex` from src/mdpdf.py, lines 59-60:
`MetaInlines([RawInline('tex', string)])`. -/
def MetaRawLatex (s : String) : Json :=
  mkNode "MetaInlines" (Json.arr [RawInlineNode "tex" s])

-- ---[ mdpdf.get_code_in_para ]---------------------------------------------

/-- The `'t' in element and element['t'] == 'CodeBlock'` test of the
`has_code_block` scan (lines 69-71 of src/mdpdf.py). -/
def isCodeBlockElt (e : Json) : Bool :=
  match e with
  | Json.obj f =>
    (match jlookup "t" f with
     | some tv => strEq tv "CodeBlock"
     | none => false)
  | _ => false

/-- The `block_c_begin` computation (lines 76-80 of src/mdpdf.py),
given the already-evaluated `block['c'][0][1]`: when it is truthy the
opening line names `block['c'][0][1][0]` as the language (an
out-of-range index raises, `none`). -/
def blockCBegin (classes : Json) : Option String :=
  if pyTruthy classes then
    match pyIndex classes 0 with
    | some lang =>
      some ("\\begin\x7blstlisting\x7d[language=" ++ pyStr lang ++ "]\n")
    | none => none
  else some "\\begin\x7blstlisting\x7d"

/-- `per_block['c'].append(new_block)` (line 86 of src/mdpdf.py):
raises (`none`) when the dict has no `'c'` key or its value is not a
list. -/
def appendToC (pb : Json) (newBlock : Json) : Option Json :=
  match pb with
  | Json.obj fields =>
    (match jlookup "c" fields with
     | some (Json.arr l) => some (Json.obj (setKey fields "c" (Json.arr (l ++ [newBlock]))))
     | _ => none)
  | _ => none

/-- The `for index, block in enumerate(tree)` loop of
`get_code_in_para` (lines 73-89 of src/mdpdf.py), made functional.
`done` is the prefix of the list already passed by the iterator,
`perBlock` is the current value of the `per_block` variable, and the
third argument is the part of the list the iterator has not yet
yielded.

Two pieces of Python state are encoded explicitly:

* `per_block['c'].append(...)` mutates an alias.  Whenever the guard
  `block['t'] == 'CodeBlock' and per_block and per_block['t'] == 'Para'`
  fires, `per_block` is the element immediately before `block` in the
  current list: `per_block` is rebound to a fresh `RawInline` dict (tag
  `"RawInline"`, never `"Para"`) exactly in the iterations that fire,
  and otherwise to the element just yielded.  So the mutation is
  applied to the last element of `done`.
* `del tree[index]` removes the current element while iterating, so the
  element that slides into position `index` is skipped by the iterator:
  it moves into `done` without being processed, and `per_block` keeps
  the value (the fresh `RawInline`) it was given at the end of the
  firing iteration. -/
def mergeLoop (done : List Json) (perBlock : Option Json) :
    List Json → Option (List Json)
  | [] => some done
  | block :: rest =>
    match block with
    | Json.obj bf =>
      (match jlookup "t" bf with
       | none => none
       | some bt =>
         match
           (if strEq bt "CodeBlock" then
              match perBlock with
              | none => some false
              | some pb =>
                if pyTruthy pb then
                  match pb with
                  | Json.obj pf =>
                    (match jlookup "t" pf with
                     | none => none
                     | some pt => some (strEq pt "Para"))
                  | _ => none
                else some false
            else some false : Option Bool)
         with
         | none => none
         | some false => mergeLoop (done ++ [block]) (some block) rest
         | some true =>
           match jlookup "c" bf with
           | none => none
           | some blockC =>
             match pyIndex blockC 0 with
             | none => none
             | some c0 =>
               match pyIndex c0 1 with
               | none => none
               | some classes =>
                 match blockCBegin classes with
                 | none => none
                 | some cBegin =>
                   match pyIndex blockC 1 with
                   | none => none
                   | some codeJ =>
                     let newBlock := RawInlineNode "latex"
                       ("\n" ++ cBegin ++ "\n" ++ pyStr codeJ ++ "\n" ++
                        "\\end\x7blstlisting\x7d")
                     match done.getLast? with
                     | none => none
                     | some pb0 =>
                       match appendToC pb0 newBlock with
                       | none => none
                       | some pb1 =>
                         let done1 := done.dropLast ++ [pb1]
                         match rest with
                         | [] => some done1
                         | skipped :: rest1 =>
                           mergeLoop (done1 ++ [skipped]) (some newBlock) rest1)
    | _ => none

mutual

/-- `get_code_in_para` from src/mdpdf.py, lines 64-98.  `none` is a
raised Python exception (e.g. `block['t']` on a dict without `'t'`). -/
def get_code_in_para (tree : Json) : Option Json :=
  match tree with
  | Json.arr elements =>
    if elements.all isDict then
      if elements.any isCodeBlockElt then
        (mergeLoop [] none elements).map Json.arr
      else
        (gcipList elements).map Json.arr
    else
      (gcipList elements).map Json.arr
  | Json.obj fields => (gcipFields fields).map Json.obj
  | t => some t

/-- The `[get_code_in_para(ele) for ele in tree]` comprehension. -/
def gcipList : List Json → Option (List Json)
  | [] => some []
  | e :: rest =>
    (match get_code_in_para e, gcipList rest with
     | some r, some rs => some (r :: rs)
     | _, _ => none)

/-- The `\x7bkey: get_code_in_para(tree[key]) for key in tree\x7d`
comprehension. -/
def gcipFields : List (String × Json) → Option (List (String × Json))
  | [] => some []
  | (k, v) :: rest =>
    (match get_code_in_para v, gcipFields rest with
     | some r, some rs => some ((k, r) :: rs)
     | _, _ => none)

end

-- ---[ mdpdf.add_meta ]-----------------------------------------------------

/-- The `header-includes` string of `add_meta` (lines 108-122 of
src/mdpdf.py): the adjacent raw strings joined by explicit newlines. -/
def headerIncludes : String :=
  "\\usepackage\x7blisting\x7d" ++ "\n" ++
  "\\lstset\x7b" ++ "\n" ++
  "    basicstyle=\\fontsize\x7b10pt\x7d\x7b13pt\x7d" ++
        "\\ttfamily\\color\x7bGreen4!5!black\x7d," ++ "\n" ++
  "    frame=tRBl," ++ "\n" ++
  "    breakatwhitespace=false," ++ "\n" ++
  "    keywordstyle=\\color\x7bGreen4!50!black\x7d," ++ "\n" ++
  "    commentstyle=\\color\x7bGray0!50!black\x7d," ++ "\n" ++
  "    stringstyle=\\color\x7bOrange4!50!black\x7d," ++ "\n" ++
  "    breaklines=true," ++ "\n" ++
  "    xleftmargin=2.5em," ++ "\n" ++
  "    showstringspaces=false," ++ "\n" ++
  "\x7d" ++ "\n" ++
  "\\usepackage\x7bgraphicx\x7d" ++ "\n" ++
  "\\usepackage\x7bimport\x7d"

/-- The fixed mapping assigned to `doc['meta']` by `add_meta`
(lines 103-123 of src/mdpdf.py). -/
def mdpdfMeta : Json :=
  Json.obj
    [("CJKmainfont", MetaStringNode "AR PL KaitiM GB"),
     ("papersize", MetaStringNode "a4"),
     ("geometry", MetaStringNode "right=3cm, left=3cm, top=3.5cm, bottom=3.5cm"),
     ("fontsize", MetaStringNode "12pt"),
     ("header-includes", MetaRawLatex headerIncludes)]

/-- `add_meta` from src/mdpdf.py, lines 101-124, on the fields of the
document dict: `doc['meta'] = \x7b ... \x7d`. -/
def add_meta (doc : List (String × Json)) : List (String × Json) :=
  setKey doc "meta" mdpdfMeta

-- ---[ measures and predicates used by the theorems ]-----------------------

mutual

/-- Structural size of a JSON value, used to supply enough fuel. -/
def jsize : Json → Nat
  | Json.arr l => 1 + jsizeL l
  | Json.obj l => 1 + jsizeF l
  | _ => 1

def jsizeL : List Json → Nat
  | [] => 0
  | x :: xs => jsize x + jsizeL xs

def jsizeF : List (String × Json) → Nat
  | [] => 0
  | (_, v) :: xs => jsize v + jsizeF xs

end

mutual

/-- A tree containing no pandoc Node anywhere: no dict in it has a
`'t'` key. -/
def nodeFree : Json → Bool
  | Json.arr l => nodeFreeL l
  | Json.obj l => (jlookup "t" l).isNone && nodeFreeF l
  | _ => true

def nodeFreeL : List Json → Bool
  | [] => true
  | x :: xs => nodeFree x && nodeFreeL xs

def nodeFreeF : List (String × Json) → Bool
  | [] => true
  | (_, v) :: xs => nodeFree v && nodeFreeF xs

end

mutual

/-- The `(key, value)` pairs of the Nodes of a tree in traversal order:
what a full non-rewriting `walk` pass offers to its action. -/
def offers : Json → Offers
  | Json.arr l => offersItems l
  | Json.obj l => offersFields l
  | _ => []

def offersItems : List Json → Offers
  | [] => []
  | item :: rest =>
    (match nodeView item with
     | some (tv, cv) => (tv, cv) :: (offers item ++ offersItems rest)
     | none => offers item ++ offersItems rest)

def offersFields : List (String × Json) → Offers
  | [] => []
  | (_, v) :: rest => offers v ++ offersFields rest

end

-- ---[ shared lemmas ]------------------------------------------------------

theorem jsize_pos : ∀ j : Json, 1 ≤ jsize j := by
  intro j; cases j <;> simp [jsize]

theorem nodeView_of_nodeFree (j : Json) (h : nodeFree j = true) :
    nodeView j = none := by
  cases j <;> simp [nodeView]
  case obj l =>
    simp [nodeFree] at h
    simp [h.1]

/-- With an action that always returns `None`, `walk` (given enough
fuel) returns the tree unchanged and offers exactly the Nodes of the
tree, in traversal order. -/
theorem walk_none_triple (a : WalkAction) (f : String) (m : Json)
    (ha : ∀ t c, a t c f m = none) :
    ∀ n : Nat,
      (∀ tree, jsize tree ≤ n → walk n a f m tree = some (tree, offers tree)) ∧
      (∀ items, jsizeL items ≤ n →
        walkItems n a f m items = some (items, offersItems items)) ∧
      (∀ fields, jsizeF fields ≤ n →
        walkFields n a f m fields = some (fields, offersFields fields)) := by
  intro n
  induction n with
  | zero =>
    refine ⟨?_, ?_, ?_⟩
    · intro tree h
      exact absurd h (by have := jsize_pos tree; omega)
    · intro items h
      cases items with
      | nil => simp [walkItems, offersItems]
      | cons x xs =>
        exfalso
        have := jsize_pos x
        simp [jsizeL] at h
        omega
    · intro fields h
      cases fields with
      | nil => simp [walkFields, offersFields]
      | cons kv xs =>
        exfalso
        obtain ⟨k, v⟩ := kv
        have := jsize_pos v
        simp [jsizeF] at h
        omega
  | succ n ih =>
    obtain ⟨ihT, ihI, ihF⟩ := ih
    have hT : ∀ tree, jsize tree ≤ n + 1 →
        walk (n + 1) a f m tree = some (tree, offers tree) := by
      intro tree h
      cases tree with
      | arr items =>
        have hle : jsizeL items ≤ n := by simp [jsize] at h; omega
        simp [walk, ihI items hle, offers]
      | obj fields =>
        have hle : jsizeF fields ≤ n := by simp [jsize] at h; omega
        simp [walk, ihF fields hle, offers]
      | null => simp [walk, offers]
      | bool b => simp [walk, offers]
      | num i => simp [walk, offers]
      | str s => simp [walk, offers]
    have hI : ∀ items, jsizeL items ≤ n + 1 →
        walkItems (n + 1) a f m items = some (items, offersItems items) := by
      intro items
      induction items with
      | nil => intro _; simp [walkItems, offersItems]
      | cons item rest ihRest =>
        intro h
        simp [jsizeL] at h
        have h1 : jsize item ≤ n + 1 := by omega
        have h2 : jsizeL rest ≤ n + 1 := by have := jsize_pos item; omega
        cases hv : nodeView item with
        | some p =>
          obtain ⟨tv, cv⟩ := p
          simp [walkItems, handleItem, hv, ha, hT item h1, ihRest h2, offersItems]
        | none =>
          simp [walkItems, handleItem, hv, hT item h1, ihRest h2, offersItems]
    have hF : ∀ fields, jsizeF fields ≤ n + 1 →
        walkFields (n + 1) a f m fields = some (fields, offersFields fields) := by
      intro fields
      induction fields with
      | nil => intro _; simp [walkFields, offersFields]
      | cons kv rest ihRest =>
        obtain ⟨k, v⟩ := kv
        intro h
        simp [jsizeF] at h
        have h1 : jsize v ≤ n + 1 := by omega
        have h2 : jsizeF rest ≤ n + 1 := by have := jsize_pos v; omega
        simp [walkFields, hT v h1, ihRest h2, offersFields]
    exact ⟨hT, hI, hF⟩

/-- On a tree with no Nodes, `walk` (given enough fuel) is the
identity and never calls the action, whatever the action is. -/
theorem walk_nodeFree_triple (a : WalkAction) (f : String) (m : Json) :
    ∀ n : Nat,
      (∀ tree, jsize tree ≤ n → nodeFree tree = true →
        walk n a f m tree = some (tree, [])) ∧
      (∀ items, jsizeL items ≤ n → nodeFreeL items = true →
        walkItems n a f m items = some (items, [])) ∧
      (∀ fields, jsizeF fields ≤ n → nodeFreeF fields = true →
        walkFields n a f m fields = some (fields, [])) := by
  intro n
  induction n with
  | zero =>
    refine ⟨?_, ?_, ?_⟩
    · intro tree h _
      exact absurd h (by have := jsize_pos tree; omega)
    · intro items h _
      cases items with
      | nil => simp [walkItems]
      | cons x xs =>
        exfalso
        have := jsize_pos x
        simp [jsizeL] at h
        omega
    · intro fields h _
      cases fields with
      | nil => simp [walkFields]
      | cons kv xs =>
        exfalso
        obtain ⟨k, v⟩ := kv
        have := jsize_pos v
        simp [jsizeF] at h
        omega
  | succ n ih =>
    obtain ⟨ihT, ihI, ihF⟩ := ih
    have hT : ∀ tree, jsize tree ≤ n + 1 → nodeFree tree = true →
        walk (n + 1) a f m tree = some (tree, []) := by
      intro tree h hnf
      cases tree with
      | arr items =>
        have hle : jsizeL items ≤ n := by simp [jsize] at h; omega
        simp [nodeFree] at hnf
        simp [walk, ihI items hle hnf]
      | obj fields =>
        have hle : jsizeF fields ≤ n := by simp [jsize] at h; omega
        simp [nodeFree] at hnf
        simp [walk, ihF fields hle hnf.2]
      | null => simp [walk]
      | bool b => simp [walk]
      | num i => simp [walk]
      | str s => simp [walk]
    have hI : ∀ items, jsizeL items ≤ n + 1 → nodeFreeL items = true →
        walkItems (n + 1) a f m items = some (items, []) := by
      intro items
      induction items with
      | nil => intro _ _; simp [walkItems]
      | cons item rest ihRest =>
        intro h hnf
        simp [jsizeL] at h
        simp [nodeFreeL] at hnf
        have h1 : jsize item ≤ n + 1 := by omega
        have h2 : jsizeL rest ≤ n + 1 := by have := jsize_pos item; omega
        simp [walkItems, handleItem, nodeView_of_nodeFree item hnf.1,
          hT item h1 hnf.1, ihRest h2 hnf.2]
    have hF : ∀ fields, jsizeF fields ≤ n + 1 → nodeFreeF fields = true →
        walkFields (n + 1) a f m fields = some (fields, []) := by
      intro fields
      induction fields with
      | nil => intro _ _; simp [walkFields]
      | cons kv rest ihRest =>
        obtain ⟨k, v⟩ := kv
        intro h hnf
        simp [jsizeF] at h
        simp [nodeFreeF] at hnf
        have h1 : jsize v ≤ n + 1 := by omega
        have h2 : jsizeF rest ≤ n + 1 := by have := jsize_pos v; omega
        simp [walkFields, hT v h1 hnf.1, ihRest h2 hnf.2]
    exact ⟨hT, hI, hF⟩

/-- `walk` returns exactly one value per walked replacement item, so a
spliced list contributes as many elements as the action returned. -/
theorem walkEach_length (fuel : Nat) (a : WalkAction) (f : String) (m : Json) :
    ∀ rs out tr, walkEach fuel a f m rs = some (out, tr) →
      out.length = rs.length := by
  intro rs
  induction rs with
  | nil =>
    intro out tr h
    simp [walkEach] at h
    simp [← h.1]
  | cons r rest ih =>
    intro out tr h
    cases h1 : walk fuel a f m r with
    | none => simp [walkEach, h1] at h
    | some p1 =>
      obtain ⟨w, tr1⟩ := p1
      cases h2 : walkEach fuel a f m rest with
      | none => simp [walkEach, h1, h2] at h
      | some p2 =>
        obtain ⟨ws, tr2⟩ := p2
        simp [walkEach, h1, h2] at h
        simp [← h.1, ih ws tr2 h2]

/-- When the loop body processes a Node, the offer of that Node is the
head of the trace this iteration produces: the Node is offered exactly
once at its own level, before any recursive offer. -/
theorem handleItem_offer_head (fuel : Nat) (a : WalkAction) (f : String) (m : Json)
    (item tv cv : Json) (ws1 : List Json) (tr1 : Offers)
    (hv : nodeView item = some (tv, cv))
    (hh : handleItem fuel a f m item = some (ws1, tr1)) :
    ∃ tl, tr1 = (tv, cv) :: tl := by
  cases ha : a tv cv f m with
  | none =>
    simp only [handleItem, hv, ha] at hh
    obtain ⟨p, -, hp2⟩ := Option.map_eq_some'.mp hh
    exact ⟨p.2, ((Prod.ext_iff.mp hp2).2).symm⟩
  | some r =>
    cases r <;> simp only [handleItem, hv, ha] at hh <;>
      (obtain ⟨p, -, hp2⟩ := Option.map_eq_some'.mp hh;
       exact ⟨p.2, ((Prod.ext_iff.mp hp2).2).symm⟩)

/-- Inversion of one step of the list loop: a successful walk of
`item :: rest` yields a successful walk of `rest`, whose trace is a
suffix of the whole trace, after the head item's own contribution. -/
theorem walkItems_cons_inv (fuel : Nat) (a : WalkAction) (f : String) (m : Json)
    (item : Json) (rest out : List Json) (tr : Offers)
    (hw : walkItems fuel a f m (item :: rest) = some (out, tr)) :
    ∃ ws1 tr1 ws2 tr2, handleItem fuel a f m item = some (ws1, tr1) ∧
      walkItems fuel a f m rest = some (ws2, tr2) ∧
      out = ws1 ++ ws2 ∧ tr = tr1 ++ tr2 := by
  cases h1 : handleItem fuel a f m item with
  | none => simp [walkItems, h1] at hw
  | some p1 =>
    obtain ⟨ws1, tr1⟩ := p1
    cases h2 : walkItems fuel a f m rest with
    | none => simp [walkItems, h1, h2] at hw
    | some p2 =>
      obtain ⟨ws2, tr2⟩ := p2
      simp [walkItems, h1, h2] at hw
      exact ⟨ws1, tr1, ws2, tr2, rfl, rfl, hw.1.symm, hw.2.symm⟩

/-- In a successful walk of a list, every Node element of the list has
its `(key, value)` pair offered to the action. -/
theorem offered_of_mem (fuel : Nat) (a : WalkAction) (f : String) (m : Json) :
    ∀ items out tr, walkItems fuel a f m items = some (out, tr) →
      ∀ item tv cv, item ∈ items → nodeView item = some (tv, cv) →
        (tv, cv) ∈ tr := by
  intro items
  induction items with
  | nil =>
    intro out tr _ item tv cv hm
    simp at hm
  | cons x rest ih =>
    intro out tr hw item tv cv hm hv
    obtain ⟨ws1, tr1, ws2, tr2, h1, h2, -, htr⟩ :=
      walkItems_cons_inv fuel a f m x rest out tr hw
    subst htr
    rcases List.mem_cons.mp hm with hx | hr
    · rw [hx] at hv
      obtain ⟨tl, htl⟩ := handleItem_offer_head fuel a f m x tv cv ws1 tr1 hv h1
      rw [htl]
      exact List.mem_append_left _ (List.mem_cons_self _ _)
    · exact List.mem_append_right _ (ih ws2 tr2 h2 item tv cv hr hv)

-- ---[ association-list lemmas for add_meta ]-------------------------------

theorem jlookup_setKey_self (k : String) (v : Json) :
    ∀ fields, jlookup k (setKey fields k v) = some v := by
  intro fields
  induction fields with
  | nil => simp [setKey, jlookup]
  | cons kv rest ih =>
    obtain ⟨k1, v1⟩ := kv
    by_cases h : k1 = k
    · simp [setKey, h, jlookup]
    · simp [setKey, h, jlookup, ih]

theorem jlookup_setKey_other (k k1 : String) (v : Json) (hne : k1 ≠ k) :
    ∀ fields, jlookup k1 (setKey fields k v) = jlookup k1 fields := by
  intro fields
  induction fields with
  | nil => simp [setKey, jlookup, Ne.symm hne]
  | cons kv rest ih =>
    obtain ⟨k2, v2⟩ := kv
    by_cases h : k2 = k
    · subst h
      simp [setKey, jlookup, Ne.symm hne]
    · simp [setKey, h, jlookup, ih]

-- ---[ claim theorems ]-----------------------------------------------------

/-- C5: invoking a Node constructor with a number of arguments different
from its declared arity fails with an error identifying the tag, the
expected count and the actual count, and invoking it with exactly the
declared arity succeeds; in particular `Para()` fails and `Para(["x"])`
succeeds. -/
theorem C5_constructor_arity :
    (∀ t n (args : List Json), args.length ≠ n →
      elt t n args = Except.error ⟨t, n, args.length⟩) ∧
    (∀ t n (args : List Json), args.length = n →
      ∃ j, elt t n args = Except.ok j) ∧
    Pandoc.Para [] = Except.error ⟨"Para", 1, 0⟩ ∧
    (∃ j, Pandoc.Para [Json.arr [Json.str "x"]] = Except.ok j) := by
  refine ⟨?_, ?_, rfl, ⟨_, rfl⟩⟩
  · intro t n args h
    simp only [elt]
    rw [if_pos h]
  · intro t n args h
    simp only [elt]
    rw [if_neg (fun hc => hc h)]
    exact ⟨_, rfl⟩

/-- C5 witness: the arity check evaluated at concrete inputs. -/
theorem C5_constructor_arity_witness :
    elt "Str" 1 [] = Except.error ⟨"Str", 1, 0⟩ ∧
    (∃ j, elt "Header" 3 [Json.num 1, Json.arr [], Json.arr []] = Except.ok j) :=
  ⟨C5_constructor_arity.1 "Str" 1 [] (by decide),
   C5_constructor_arity.2.1 "Header" 3 [Json.num 1, Json.arr [], Json.arr []] rfl⟩

/-- C6 counterexample: for a 0-arity constructor the content is not
absent: `Space()` returns a node whose `'c'` key is present, with the
empty list as its value. -/
theorem C6_counterexample_zero_arity_content_present :
    Pandoc.Space [] =
      Except.ok (Json.obj [("t", Json.str "Space"), ("c", Json.arr [])]) ∧
    jlookup "c" [("t", Json.str "Space"), ("c", Json.arr [])] =
      some (Json.arr []) :=
  ⟨rfl, rfl⟩

/-- C6 (amended): a constructor of declared arity `n` invoked with
exactly `n` arguments returns a Node with the constructor's tag whose
content is the empty list (not an absent key) when `n = 0`, the single
argument unwrapped when `n = 1`, and the ordered argument sequence when
`n > 1`. -/
theorem C6_constructor_content (t : String) :
    elt t 0 [] = Except.ok (mkNode t (Json.arr [])) ∧
    (∀ x : Json, elt t 1 [x] = Except.ok (mkNode t x)) ∧
    (∀ n (args : List Json), 2 ≤ n → args.length = n →
      elt t n args = Except.ok (mkNode t (Json.arr args))) := by
  refine ⟨rfl, fun x => rfl, ?_⟩
  intro n args h2 h
  simp only [elt]
  rw [if_neg (fun hc => hc h)]
  rw [if_neg (by omega), if_neg (by omega)]
  rfl

/-- C6 witness: the amended content rule evaluated at concrete
inputs. -/
theorem C6_constructor_content_witness :
    elt "Quoted" 2 [Json.str "q", Json.arr []] =
      Except.ok (mkNode "Quoted" (Json.arr [Json.str "q", Json.arr []])) :=
  (C6_constructor_content "Quoted").2.2 2 [Json.str "q", Json.arr []] (by decide) rfl

/-- C9: add_meta replaces the document's entire `meta` value with the
fixed typesetting mapping, whatever `meta` previously contained and
whether or not it existed, and leaves every other key unchanged. -/
theorem C9_add_meta_overwrites (doc : List (String × Json)) :
    jlookup "meta" (add_meta doc) = some mdpdfMeta ∧
    (∀ k, k ≠ "meta" → jlookup k (add_meta doc) = jlookup k doc) := by
  constructor
  · exact jlookup_setKey_self "meta" mdpdfMeta doc
  · intro k hk
    exact jlookup_setKey_other "meta" k mdpdfMeta hk doc

/-- C9 witness: add_meta evaluated on a document that already has a
`meta` entry and another key. -/
theorem C9_add_meta_overwrites_witness :
    jlookup "meta"
      (add_meta [("meta", Json.null), ("blocks", Json.arr [])]) =
      some mdpdfMeta ∧
    jlookup "blocks"
      (add_meta [("meta", Json.null), ("blocks", Json.arr [])]) =
      jlookup "blocks" [("meta", Json.null), ("blocks", Json.arr [])] :=
  ⟨(C9_add_meta_overwrites _).1,
   (C9_add_meta_overwrites _).2 "blocks" (by decide)⟩

/-- C1 (code bug): applyJSONFilters never returns a serialized
document.  After the action loop the function executes
`return json.dumps(altered)` (src/pandocfilters.py line 127) and
`altered` is an undefined name, so every run that deserializes a dict
and finishes its walks raises NameError instead of returning the
serialization; no input at all can produce an `ok` result. -/
theorem C1_applyJSONFilters_never_returns :
    (∀ fuel actions parsed format s,
      applyJSONFilters fuel actions parsed format ≠ some (Except.ok s)) ∧
    (∀ fuel format (fields : List (String × Json)),
      applyJSONFilters fuel [] (some (Json.obj fields)) format =
        some (Except.error PyErr.nameError)) := by
  constructor
  · intro fuel actions parsed format s h
    cases parsed with
    | none => simp [applyJSONFilters] at h
    | some doc =>
      cases doc with
      | obj fields =>
        cases hr : runActions fuel actions format
            ((jlookup "meta" fields).getD (Json.obj [])) (Json.obj fields) with
        | none => simp [applyJSONFilters, hr] at h
        | some d => simp [applyJSONFilters, hr] at h
      | null => simp [applyJSONFilters] at h
      | bool b => simp [applyJSONFilters] at h
      | num i => simp [applyJSONFilters] at h
      | str s2 => simp [applyJSONFilters] at h
      | arr l => simp [applyJSONFilters] at h
  · intro fuel format fields
    simp [applyJSONFilters, runActions]

/-- C7: applyJSONFilters fails with the malformed-input error exactly
when the source does not deserialize, and that failure happens before
the action loop: the result on malformed input is the same whatever
the actions are, and no successfully deserialized input can produce
the malformed-input error. -/
theorem C7_malformed_input_iff :
    (∀ fuel actions format,
      applyJSONFilters fuel actions none format =
        some (Except.error PyErr.malformedInput)) ∧
    (∀ fuel actions doc format r,
      applyJSONFilters fuel actions (some doc) format = some r →
        r ≠ Except.error PyErr.malformedInput) := by
  constructor
  · intro fuel actions format
    rfl
  · intro fuel actions doc format r h hr
    subst hr
    cases doc with
    | obj fields =>
      cases hr2 : runActions fuel actions format
          ((jlookup "meta" fields).getD (Json.obj [])) (Json.obj fields) with
      | none => simp [applyJSONFilters, hr2] at h
      | some d => simp [applyJSONFilters, hr2] at h
    | null => simp [applyJSONFilters] at h
    | bool b => simp [applyJSONFilters] at h
    | num i => simp [applyJSONFilters] at h
    | str s2 => simp [applyJSONFilters] at h
    | arr l => simp [applyJSONFilters] at h

/-- C7 witness: the no-false-positive direction evaluated on a
well-formed document. -/
theorem C7_malformed_input_iff_witness :
    (Except.error PyErr.nameError : Except PyErr String) ≠
      Except.error PyErr.malformedInput :=
  C7_malformed_input_iff.2 1 [] (Json.obj []) "" _ rfl

/-- C3: when the action returns a sequence of `k` replacement nodes for
an element, `walk` walks each returned item independently and appends
all results in order in place of that one element, so the output
sequence has `k` elements at that position (length `k` plus the length
contributed by the remaining elements): `k = 0` deletes, `k = 1`
replaces one-to-one, `k > 1` inserts. -/
theorem C3_splice (fuel : Nat) (a : WalkAction) (f : String) (m : Json)
    (item tv cv : Json) (res rest ws1 ws : List Json) (tr1 tr2 : Offers)
    (hv : nodeView item = some (tv, cv))
    (ha : a tv cv f m = some (Json.arr res))
    (he : walkEach fuel a f m res = some (ws1, tr1))
    (hr : walkItems fuel a f m rest = some (ws, tr2)) :
    walkItems fuel a f m (item :: rest) =
      some (ws1 ++ ws, (tv, cv) :: (tr1 ++ tr2)) ∧
    ws1.length = res.length ∧
    (ws1 ++ ws).length = res.length + ws.length := by
  have hlen := walkEach_length fuel a f m res ws1 tr1 he
  refine ⟨?_, hlen, ?_⟩
  · simp [walkItems, handleItem, hv, ha, he, hr]
  · simp [hlen]

/-- An action that splices two fresh nodes in place of every node
tagged `"D"`. -/
def spliceAct : WalkAction := fun t _ _ _ =>
  if strEq t "D" then
    some (Json.arr [mkNode "E" Json.null, mkNode "F" Json.null])
  else none

/-- C3 witness: a two-node splice (`k = 2`) evaluated concretely: the
element is replaced by both returned nodes in order, and the output is
one element longer. -/
theorem C3_splice_witness :
    walkItems 5 spliceAct "" Json.null
        (mkNode "D" Json.null :: [Json.num 7]) =
      some ([mkNode "E" Json.null, mkNode "F" Json.null] ++ [Json.num 7],
        (Json.str "D", Json.null) :: ([] ++ [])) ∧
    ([mkNode "E" Json.null, mkNode "F" Json.null] : List Json).length =
      ([mkNode "E" Json.null, mkNode "F" Json.null] : List Json).length ∧
    (([mkNode "E" Json.null, mkNode "F" Json.null] : List Json) ++
        [Json.num 7]).length =
      ([mkNode "E" Json.null, mkNode "F" Json.null] : List Json).length +
        ([Json.num 7] : List Json).length := by
  refine C3_splice 5 spliceAct "" Json.null (mkNode "D" Json.null)
    (Json.str "D") Json.null
    [mkNode "E" Json.null, mkNode "F" Json.null] [Json.num 7]
    [mkNode "E" Json.null, mkNode "F" Json.null] [Json.num 7] [] []
    ?_ ?_ ?_ ?_
  · simp [nodeView, mkNode, jlookup]
  · simp [spliceAct, strEq]
  · simp [walkEach, walk, walkFields, mkNode, nodeView, jlookup]
  · simp [walkItems, handleItem, walk, nodeView]

/-- C4: walk is the identity when nothing is rewritten: on a tree with
no Nodes it returns the tree unchanged for any action (the action is
never called, so the trace is empty), and for an action that always
returns the unchanged sentinel it returns any tree unchanged — in
particular element order is preserved exactly — while offering every
Node once in traversal order. -/
theorem C4_walk_identity :
    (∀ fuel (a : WalkAction) f m tree, nodeFree tree = true →
      jsize tree ≤ fuel → walk fuel a f m tree = some (tree, [])) ∧
    (∀ fuel (a : WalkAction) f m tree, (∀ t c, a t c f m = none) →
      jsize tree ≤ fuel → walk fuel a f m tree = some (tree, offers tree)) := by
  constructor
  · intro fuel a f m tree hnf hsz
    exact (walk_nodeFree_triple a f m fuel).1 tree hsz hnf
  · intro fuel a f m tree ha hsz
    exact (walk_none_triple a f m ha fuel).1 tree hsz

/-- C4 witness: both identity statements evaluated concretely — a
node-free container with an arbitrary action, and a two-node sequence
with the always-unchanged action. -/
theorem C4_walk_identity_witness :
    walk 9 spliceAct "" Json.null
        (Json.obj [("xs", Json.arr [Json.num 1, Json.str "s"])]) =
      some ((Json.obj [("xs", Json.arr [Json.num 1, Json.str "s"])]), []) ∧
    walk 9 (fun _ _ _ _ => none) "" Json.null
        (Json.arr [mkNode "D" Json.null, mkNode "E" Json.null]) =
      some ((Json.arr [mkNode "D" Json.null, mkNode "E" Json.null]),
        offers (Json.arr [mkNode "D" Json.null, mkNode "E" Json.null])) := by
  constructor
  · exact C4_walk_identity.1 9 spliceAct "" Json.null _
      (by simp [nodeFree, nodeFreeF, nodeFreeL, jlookup])
      (by simp [jsize, jsizeF, jsizeL])
  · exact C4_walk_identity.2 9 (fun _ _ _ _ => none) "" Json.null _
      (fun _ _ => rfl)
      (by simp [jsize, jsizeF, jsizeL, mkNode])

/-- The action of the C2 counterexample: it replaces every node tagged
`"A"` by a fresh node tagged `"B"` (whose content holds no further
node). -/
def actA : WalkAction := fun t _ _ _ =>
  if strEq t "A" then some (mkNode "B" Json.null) else none

/-- The single node the C2 counterexample walks. -/
def nodeA : Json := Json.obj [("t", Json.str "A")]

/-- C2 counterexample: a replacement Node is not itself offered to the
action.  Walking `[A]` under an action that replaces `A` by `B`
offers only `("A", null)`: the pair `("B", null)` — the replacement
Node at its own level — is absent from the trace, contradicting the
claim that every Node appearing in a replacement value (including a
single replacement Node) is offered. -/
theorem C2_counterexample_replacement_not_offered :
    walk 5 actA "" Json.null (Json.arr [nodeA]) =
      some (Json.arr [mkNode "B" Json.null], [(Json.str "A", Json.null)]) ∧
    ¬ ((Json.str "B", Json.null) ∈
        ([(Json.str "A", Json.null)] : Offers)) := by
  constructor
  · simp [walk, walkItems, handleItem, walkEach, walkFields, nodeView,
      jlookup, actA, strEq, nodeA, mkNode]
  · intro h
    simp at h

/-- C2 (amended): every Node element of a walked sequence is offered to
the action exactly once at its own level — its `(key, value)` pair
heads the trace of its own loop iteration, and each iteration's trace
is a separate segment of the full trace; nodes appearing inside a
replacement value are offered through the recursive re-walk of the
replacement, but a single replacement Node itself — and likewise each
item of a returned sequence — is re-walked without being re-offered at
its own level (walking an object only walks, and offers from, its
field values).  Concretely the conjuncts state: (1) the iteration
trace of a Node element starts with its own offer; (2) a successful
walk of `item :: rest` splits into the item's iteration and a
successful walk of `rest`, with concatenated traces; (3) handling a
Node whose action result is a single (non-sequence) replacement `r`
contributes the offer of the original node followed by exactly the
offers of walking `r`; (4) walking a dict yields the offers of its
field values only; (5) every Node element of any walked list has its
pair in the trace. -/
theorem C2_offers_amended :
    (∀ fuel (a : WalkAction) f m item tv cv ws1 tr1,
      nodeView item = some (tv, cv) →
      handleItem fuel a f m item = some (ws1, tr1) →
      ∃ tl, tr1 = (tv, cv) :: tl) ∧
    (∀ fuel (a : WalkAction) f m item rest out tr,
      walkItems fuel a f m (item :: rest) = some (out, tr) →
      ∃ ws1 tr1 ws2 tr2, handleItem fuel a f m item = some (ws1, tr1) ∧
        walkItems fuel a f m rest = some (ws2, tr2) ∧
        out = ws1 ++ ws2 ∧ tr = tr1 ++ tr2) ∧
    (∀ fuel (a : WalkAction) f m item tv cv r w trR,
      nodeView item = some (tv, cv) →
      a tv cv f m = some r →
      (∀ res, r ≠ Json.arr res) →
      walk fuel a f m r = some (w, trR) →
      handleItem fuel a f m item = some ([w], (tv, cv) :: trR)) ∧
    (∀ n (a : WalkAction) f m fields rs tr,
      walkFields n a f m fields = some (rs, tr) →
      walk (n + 1) a f m (Json.obj fields) = some (Json.obj rs, tr)) ∧
    (∀ fuel (a : WalkAction) f m items out tr,
      walkItems fuel a f m items = some (out, tr) →
      ∀ item tv cv, item ∈ items → nodeView item = some (tv, cv) →
        (tv, cv) ∈ tr) := by
  refine ⟨handleItem_offer_head, walkItems_cons_inv, ?_, ?_, offered_of_mem⟩
  · intro fuel a f m item tv cv r w trR hv ha hne hw
    cases r with
    | arr res => exact absurd rfl (hne res)
    | null => simp [handleItem, hv, ha, hw]
    | bool b => simp [handleItem, hv, ha, hw]
    | num i => simp [handleItem, hv, ha, hw]
    | str s => simp [handleItem, hv, ha, hw]
    | obj fl => simp [handleItem, hv, ha, hw]
  · intro n a f m fields rs tr hw
    simp [walk, hw]

/-- C2 witness: the amended statement applied at a concrete single
replacement — handling node `A` offers `("A", null)` and then exactly
the offers of walking the replacement `B` (none). -/
theorem C2_offers_amended_witness :
    handleItem 4 actA "" Json.null nodeA =
      some ([mkNode "B" Json.null], (Json.str "A", Json.null) :: []) :=
  C2_offers_amended.2.2.1 4 actA "" Json.null nodeA
    (Json.str "A") Json.null (mkNode "B" Json.null) (mkNode "B" Json.null) []
    (by simp [nodeView, nodeA, jlookup])
    (by simp [actA, strEq])
    (by intro res h; exact Json.noConfusion h)
    (by simp [walk, walkFields, mkNode, nodeView, jlookup])

/-- The `Para([Str("hi")])` node of the C8 scenario. -/
def ParaNode : Json := mkNode "Para" (Json.arr [mkNode "Str" (Json.str "hi")])

/-- The `CodeBlock([["",[],[]], "print(1)"])` node of the C8
scenario. -/
def CodeBlockNode : Json :=
  mkNode "CodeBlock"
    (Json.arr [Json.arr [Json.str "", Json.arr [], Json.arr []],
               Json.str "print(1)"])

/-- The Para node after the merge: its content has been appended with a
raw latex node wrapping `print(1)` in a `lstlisting` environment. -/
def mergedPara : Json :=
  mkNode "Para"
    (Json.arr [mkNode "Str" (Json.str "hi"),
      RawInlineNode "latex"
        ("\n\\begin\x7blstlisting\x7d\nprint(1)\n\\end\x7blstlisting\x7d")])

/-- C8: running the code-merge filter on
`[Para([Str("hi")]), CodeBlock([["",[],[]], "print(1)"])]` yields the
one-element sequence holding only the Para node, whose content has been
appended with a raw latex node wrapping `print(1)` in a
`lstlisting` environment; the CodeBlock is gone and the top-level
length drops from 2 to 1. -/
theorem C8_code_merge :
    get_code_in_para (Json.arr [ParaNode, CodeBlockNode]) =
      some (Json.arr [mergedPara]) ∧
    ([mergedPara] : List Json).length + 1 =
      ([ParaNode, CodeBlockNode] : List Json).length := by
  constructor
  · simp [get_code_in_para, gcipList, gcipFields, mergeLoop, isDict,
      isCodeBlockElt, strEq, jlookup, pyTruthy, pyIndex, blockCBegin,
      appendToC, setKey, pyStr, pyRepr, mkNode, RawInlineNode, ParaNode,
      CodeBlockNode, mergedPara]
  · rfl
